import Mathlib

/-!
Verification of the timed media composition and transition engine of the
BrainBinge video editor.

The development shallowly embeds the relevant parts of
`src/modules/transitions.py` (class `TransitionEngine`) and
`src/modules/composer.py` (class `VideoComposer`).  Times are modelled as
rationals (the Python code uses floats, but every operation involved is
addition, subtraction, comparison and `min`, which the claims treat
exactly).  Python dicts become structures, `None` becomes `Option`, and
the file-system state consulted by validation becomes explicit boolean
fields of the input descriptors.
-/

namespace BrainBinge

/-- A B-roll clip dict as consumed by `TransitionEngine.generate_segments`
(`transitions.py`): keys `path`, `start_time`, `end_time`. -/
structure BrollClip where
  path : String
  start_time : ℚ
  end_time : ℚ
deriving DecidableEq

/-- Segment type tag: the `'type'` key of a segment dict is either
`'avatar'` or `'broll'`. -/
inductive SegmentType where
  | avatar
  | broll
deriving DecidableEq

/-- A segment dict as produced by `TransitionEngine.generate_segments`
(`transitions.py` lines 125-168): keys `type`, `source`, `start`, `end`,
`duration`, `transition_in`, `transition_duration`, `segment_index`.
The `end` key is rendered `stop` because `end` is a Lean keyword. -/
structure Segment where
  type : SegmentType
  source : String
  start : ℚ
  stop : ℚ
  duration : ℚ
  transition_in : Option String
  transition_duration : ℚ
  segment_index : ℕ
deriving DecidableEq

/-- `TransitionEngine.transition_pattern` (`transitions.py` lines 72-79). -/
def transition_pattern : List String :=
  ["slideright", "fade", "dissolve", "circleopen", "slideright", "zoomin"]

/-- `TransitionEngine.default_duration` (`transitions.py` line 68): 0.5 s. -/
def default_duration : ℚ := 0.5

/-- `TransitionEngine._get_transition_type` (`transitions.py` lines 173-183):
`self.transition_pattern[index % len(self.transition_pattern)]`. -/
def get_transition_type (index : ℕ) : String :=
  transition_pattern.getD (index % transition_pattern.length) ""

/-- Python's `sorted(broll_clips, key=lambda x: x['start_time'])`
(`transitions.py` line 113): a stable sort by `start_time`, modelled by
Mathlib's stable insertion sort. -/
def sort_broll (broll_clips : List BrollClip) : List BrollClip :=
  broll_clips.insertionSort (fun a b => a.start_time ≤ b.start_time)

/-- The loop of `TransitionEngine.generate_segments`
(`transitions.py` lines 108-168).  State threaded through the Python loop:
the remaining sorted clips, `current_time`, the enumeration index `i`,
`transition_idx`, and `len(segments)` (used for `segment_index`).
After the loop (empty clip list) the final avatar segment is emitted when
`current_time < main_duration`. -/
def generate_segments_go (main_video_path : String) (main_duration : ℚ) :
    List BrollClip → ℚ → ℕ → ℕ → ℕ → List Segment
  | [], current_time, _i, transition_idx, nseg =>
    if current_time < main_duration then
      [{ type := .avatar, source := main_video_path, start := current_time,
         stop := main_duration, duration := main_duration - current_time,
         transition_in := some (get_transition_type transition_idx),
         transition_duration := default_duration, segment_index := nseg }]
    else []
  | broll :: rest, current_time, i, transition_idx, nseg =>
    let broll_start := broll.start_time
    let broll_end := broll.end_time
    let broll_duration := broll_end - broll_start
    if current_time < broll_start then
      -- avatar segment before this B-roll, then the B-roll segment
      { type := .avatar, source := main_video_path, start := current_time,
        stop := broll_start, duration := broll_start - current_time,
        transition_in :=
          if 0 < i then some (get_transition_type transition_idx) else none,
        transition_duration := default_duration, segment_index := nseg } ::
      { type := .broll, source := broll.path, start := 0,
        stop := broll_duration, duration := broll_duration,
        transition_in := some (get_transition_type (transition_idx + 1)),
        transition_duration := default_duration, segment_index := nseg + 1 } ::
      generate_segments_go main_video_path main_duration rest broll_end
        (i + 1) (transition_idx + 2) (nseg + 2)
    else
      -- no room for an avatar segment: only the B-roll segment
      { type := .broll, source := broll.path, start := 0,
        stop := broll_duration, duration := broll_duration,
        transition_in := some (get_transition_type transition_idx),
        transition_duration := default_duration, segment_index := nseg } ::
      generate_segments_go main_video_path main_duration rest broll_end
        (i + 1) (transition_idx + 1) (nseg + 1)

/-- `TransitionEngine.generate_segments` (`transitions.py` lines 81-171). -/
def generate_segments (main_video_path : String) (main_duration : ℚ)
    (broll_clips : List BrollClip) : List Segment :=
  generate_segments_go main_video_path main_duration (sort_broll broll_clips)
    0 0 0 0

/-- Timeline interval occupied by each segment when the segment list is
played back to back starting at `t0` (which is how
`compose_segments_with_transitions` concatenates them: each segment is an
input trimmed to `duration` and joined in order). -/
def tl_intervals (t0 : ℚ) : List Segment → List (ℚ × ℚ)
  | [] => []
  | s :: rest => (t0, t0 + s.duration) :: tl_intervals (t0 + s.duration) rest

/-- Validity of a clip list with respect to a cursor `t`: clips are in
`start_time` order, pairwise non-overlapping (each starts no earlier than
the previous end), and each interval is non-degenerate. -/
def sorted_non_overlapping (t : ℚ) : List BrollClip → Bool
  | [] => true
  | c :: rest =>
    decide (t ≤ c.start_time) && decide (c.start_time < c.end_time) &&
      sorted_non_overlapping c.end_time rest

/-- Every clip window ends no later than the main-video duration `D`. -/
def clips_within (D : ℚ) (broll_clips : List BrollClip) : Bool :=
  broll_clips.all (fun c => decide (c.end_time ≤ D))

/-! Embedding of `VideoComposer` (`composer.py`). -/

/-- `VideoComposer.max_broll_duration` (`composer.py` line 109): 3.5 s. -/
def max_broll_duration : ℚ := 3.5

/-- `VideoComposer.ducking_volume` (`composer.py` line 115): 0.5. -/
def ducking_volume : ℚ := 0.5

/-- A B-roll clip dict as consumed by `VideoComposer` (`composer.py`):
keys `path`, `start_time`, `end_time`, `type` (`"pip"` or `"fullframe"`). -/
structure ComposerClip where
  path : String
  start_time : ℚ
  end_time : ℚ
  type : String
deriving DecidableEq

/-- The start/end/duration trimming of `VideoComposer._add_broll_fullframe`
(`composer.py` lines 449-458): `duration = end - start`; if it exceeds
`max_broll_duration` then `duration = max_broll_duration` and
`end = start + duration`.  Returns `(start, end, duration)` as used for the
overlay's enable window and the clip's `-t` trim. -/
def fullframe_trim (start_time end_time : ℚ) : ℚ × ℚ × ℚ :=
  let duration := end_time - start_time
  if duration > max_broll_duration then
    (start_time, start_time + max_broll_duration, max_broll_duration)
  else
    (start_time, end_time, duration)

/-- `VideoComposer._build_audio_filters` (`composer.py` line 324):
`intervals = [(clip["start_time"], clip["end_time"]) for clip in broll_clips]`.
The ducking intervals are the clips' raw intervals. -/
def ducking_intervals (broll_clips : List ComposerClip) : List (ℚ × ℚ) :=
  broll_clips.map (fun clip => (clip.start_time, clip.end_time))

/-- FFmpeg's `between(t,start,end)` expression: 1 when
`start <= t <= end` (inclusive on both ends), 0 otherwise. -/
def ffmpeg_between (t s e : ℚ) : Bool :=
  decide (s ≤ t) && decide (t ≤ e)

/-- Value at time `t` of the volume expression built by
`VideoComposer._apply_audio_ducking` (`composer.py` lines 499-504):
`'*'.join(f"if(between(t,{start},{end}),{self.ducking_volume},1.0)")`,
i.e. the product over the intervals of a conditional factor that is
`ducking_volume` when `between(t,start,end)` holds and `1.0` otherwise. -/
def ducking_gain (broll_intervals : List (ℚ × ℚ)) (t : ℚ) : ℚ :=
  (broll_intervals.map
    (fun iv => if ffmpeg_between t iv.1 iv.2 then ducking_volume else 1)).prod

/-- Number of ducking intervals whose (inclusive) window contains `t`. -/
def containing_count (broll_intervals : List (ℚ × ℚ)) (t : ℚ) : ℕ :=
  (broll_intervals.filter (fun iv => ffmpeg_between t iv.1 iv.2)).length

/-- File-system facts about the caption file consulted by
`VideoComposer.validate` (`composer.py` lines 531-538): existence,
non-emptiness (`st_size != 0`) and the path's suffix. -/
structure CaptionsFile where
  path : String
  file_exists : Bool
  file_nonempty : Bool
  suffix : String
deriving DecidableEq

/-- A B-roll clip dict as inspected by `VideoComposer.validate`
(`composer.py` lines 541-553): whether the `path`, `start_time` and
`end_time` keys are present, and whether the file at `path` exists. -/
structure BrollClipDescriptor where
  has_path : Bool
  path : String
  path_exists : Bool
  has_start_time : Bool
  has_end_time : Bool
deriving DecidableEq

/-- Main-video checks of `VideoComposer.validate`
(`composer.py` lines 526-529). -/
def main_video_errors (input_exists input_nonempty : Bool) : List String :=
  if input_exists = false then ["Main video not found"]
  else if input_nonempty = false then ["Main video file is empty"]
  else []

/-- Caption-file checks of `VideoComposer.validate`
(`composer.py` lines 532-538). -/
def captions_errors : Option CaptionsFile → List String
  | none => []
  | some c =>
    if c.file_exists = false then ["Captions file not found: " ++ c.path]
    else if c.file_nonempty = false then ["Captions file is empty"]
    else if (c.suffix.toLower = ".ass") = false then
      ["Captions must be ASS format, got: " ++ c.suffix]
    else []

/-- Per-clip checks of `VideoComposer.validate` (`composer.py` lines
542-553): a missing `path` key reports one error and skips the rest
(`continue`); otherwise a missing file and missing timing fields each
report an error. -/
def clip_errors (i : ℕ) (clip : BrollClipDescriptor) : List String :=
  if clip.has_path = false then
    ["B-roll clip " ++ toString i ++ " missing 'path' field"]
  else
    (if clip.path_exists = false then
      ["B-roll clip not found: " ++ clip.path] else []) ++
    (if clip.has_start_time = false || clip.has_end_time = false then
      ["B-roll clip " ++ toString i ++ " missing timing fields"] else [])

/-- The `for i, clip in enumerate(broll_clips)` loop of
`VideoComposer.validate`. -/
def broll_errors (i : ℕ) : List BrollClipDescriptor → List String
  | [] => []
  | clip :: rest => clip_errors i clip ++ broll_errors (i + 1) rest

/-- `VideoComposer.validate` (`composer.py` lines 506-554). -/
def validate (input_exists input_nonempty : Bool)
    (captions : Option CaptionsFile)
    (broll_clips : List BrollClipDescriptor) : List String :=
  main_video_errors input_exists input_nonempty ++
    captions_errors captions ++ broll_errors 0 broll_clips

/-- The validation actually performed by `VideoComposer.process`
(`composer.py` line 162): `self.validate(input_path,
captions_path=captions_path, **kwargs)`.  In `process`'s signature
(line 122) `broll_clips` is an explicit named parameter, so it is bound
there and never lands in `**kwargs`; inside `validate`,
`kwargs.get("broll_clips", [])` (line 541) therefore yields `[]`
regardless of the clips the caller supplied. -/
def process_validation (input_exists input_nonempty : Bool)
    (captions : Option CaptionsFile)
    (_broll_clips : List BrollClipDescriptor) : List String :=
  validate input_exists input_nonempty captions []

/-- Control flow of `VideoComposer.process` (`composer.py` lines 160-176):
FFmpeg composition (`_compose_video`) is reached exactly when the error
list returned by the validation call is empty. -/
def process_invokes_ffmpeg (input_exists input_nonempty : Bool)
    (captions : Option CaptionsFile)
    (broll_clips : List BrollClipDescriptor) : Bool :=
  (process_validation input_exists input_nonempty captions broll_clips).isEmpty

/-- Observable state after the external FFmpeg process invoked by
`TransitionEngine.compose_segments_with_transitions` has exited: the
process exit status, and facts about the output file that post-execution
validation could inspect. -/
structure RunResult where
  returncode : Int
  output_exists : Bool
  output_size : ℕ
  probed_duration : ℚ
  expected_duration : ℚ
deriving DecidableEq

/-- Success reporting of `TransitionEngine.compose_segments_with_transitions`
(`transitions.py` lines 338-349): after `subprocess.run` returns, the only
check performed is `result.returncode != 0` (which raises
`TransitionError`); the function then returns successfully.  No field of
the output file (existence, size, probed duration) is read — the
remaining components of the `RunResult` are ignored, mirroring the absence
of any post-execution validation in the source. -/
def compose_segments_outcome (r : RunResult) : Bool :=
  decide (r.returncode = 0)

/-! Embedding of `TransitionEngine.build_xfade_filter_chain`
(`transitions.py` lines 185-239).  The produced `filter_complex` string is
modelled node by node: one scale node per input with output label `v{i}`,
then a chain of xfade nodes.  Labels and the data each node carries are
exactly those interpolated into the source's f-strings; only the textual
serialization (and its `:.2f` rounding of the offset) is left out. -/

/-- One part `[{i}:v]scale={w}:{h},setsar=1[v{i}]`
(`transitions.py` lines 210-214). -/
structure ScaleNode where
  input_index : ℕ
  width : ℕ
  height : ℕ
  out_label : String
deriving DecidableEq

/-- One part `[{cur}][v{i}]xfade=transition=..:duration=..:offset=..[{next}]`
(`transitions.py` lines 229-236). -/
structure XfadeNode where
  in1 : String
  in2 : String
  transition : String
  duration : ℚ
  offset : ℚ
  out_label : String
deriving DecidableEq

/-- Scale parts of the chain (`transitions.py` lines 209-214): segment `i`
is scaled and relabelled `v{i}`. -/
def scale_nodes (segments : List Segment) (video_width video_height : ℕ) :
    List ScaleNode :=
  (List.range segments.length).map
    (fun i => ⟨i, video_width, video_height, "v" ++ toString i⟩)

/-- Offset computation of `transitions.py` line 225:
`offset = sum(s['duration'] for s in segments[:i]) - duration`, where
`duration` is segment `i`'s `transition_duration`. -/
def xfade_offset (segments : List Segment) (i : ℕ)
    (transition_duration : ℚ) : ℚ :=
  ((segments.take i).map Segment.duration).sum - transition_duration

/-- Output-label choice of `transitions.py` line 227:
`next_label = f"v{i}" if i < len(segments) - 1 else "vout"`. -/
def xfade_next_label (n i : ℕ) : String :=
  if i < n - 1 then "v" ++ toString i else "vout"

/-- The `for i in range(1, len(segments))` loop of
`build_xfade_filter_chain` (`transitions.py` lines 219-237), walking the
segments paired with their indices and threading `current_label`.  A
segment with `transition_in = None` emits no node and leaves
`current_label` unchanged (the `if transition:` guard). -/
def xfade_nodes_go (segments : List Segment) :
    List (ℕ × Segment) → String → List XfadeNode
  | [], _ => []
  | (i, seg) :: rest, current_label =>
    match seg.transition_in with
    | some transition =>
      let next_label := xfade_next_label segments.length i
      ⟨current_label, "v" ++ toString i, transition, seg.transition_duration,
        xfade_offset segments i seg.transition_duration, next_label⟩ ::
        xfade_nodes_go segments rest next_label
    | none => xfade_nodes_go segments rest current_label

/-- Xfade parts of the chain built by `build_xfade_filter_chain`:
indices `1 .. len(segments)-1`, starting from `current_label = "v0"`. -/
def xfade_nodes (segments : List Segment) : List XfadeNode :=
  xfade_nodes_go segments (List.enumFrom 1 (segments.drop 1)) "v0"

example :
    (generate_segments "main" 30 [⟨"b1", 5, 12⟩]).map Segment.duration
      = [5, 7, 18] := by
  norm_num [generate_segments, generate_segments_go, sort_broll,
    List.insertionSort]

example :
    (generate_segments "main" 10 [⟨"b", 0, 5⟩]).map Segment.transition_in
      = [some "slideright", some "fade"] := by
  norm_num [generate_segments, generate_segments_go, sort_broll,
    List.insertionSort, get_transition_type, transition_pattern]

/-- A concrete two-segment list (durations 5 and 7, equal transition
durations of 0.5) used to witness the offset theorems on actual data. -/
def sample_segments : List Segment :=
  [⟨.avatar, "m", 0, 5, 5, none, 1/2, 0⟩,
   ⟨.broll, "b", 0, 7, 7, some "fade", 1/2, 1⟩]

/-! Theorems. -/

/-- C4: Full-frame cap.  For every fullframe supplementary clip the
effective window used for the video overlay satisfies
`end = min(interval.end, interval.start + maxFullFrameDuration)` anchored
at `interval.start`, and a clip whose interval duration exceeds
`maxFullFrameDuration` (3.5 s) yields an effective window of exactly
`maxFullFrameDuration`. -/
theorem fullframe_cap (s e : ℚ) :
    (fullframe_trim s e).1 = s ∧
    (fullframe_trim s e).2.1 = min e (s + max_broll_duration) ∧
    (e - s > max_broll_duration →
      (fullframe_trim s e).2.1 - (fullframe_trim s e).1 = max_broll_duration) := by
  refine ⟨?_, ?_, ?_⟩
  · by_cases h : e - s > max_broll_duration <;> simp [fullframe_trim, h]
  · by_cases h : e - s > max_broll_duration
    · simp only [fullframe_trim, if_pos h]
      rw [min_eq_right (by linarith)]
    · simp only [fullframe_trim, if_neg h]
      rw [min_eq_left (by linarith [not_lt.1 h])]
  · intro h
    simp only [fullframe_trim, if_pos h]
    ring

/-- Witness for C4 at Scenario C's clip `(5, 20)`. -/
theorem fullframe_cap_witness :
    (20 : ℚ) - 5 > max_broll_duration ∧
    (fullframe_trim 5 20).2.1 = min 20 (5 + max_broll_duration) ∧
    (fullframe_trim 5 20).2.1 - (fullframe_trim 5 20).1 = max_broll_duration :=
  ⟨by norm_num [max_broll_duration], (fullframe_cap 5 20).2.1,
    (fullframe_cap 5 20).2.2 (by norm_num [max_broll_duration])⟩

lemma ffmpeg_between_eq_true {t s e : ℚ} (h1 : s ≤ t) (h2 : t ≤ e) :
    ffmpeg_between t s e = true := by
  simp [ffmpeg_between, h1, h2]

lemma ffmpeg_between_eq_false {t s e : ℚ} (h : t < s ∨ e < t) :
    ffmpeg_between t s e = false := by
  rcases h with h | h <;> simp [ffmpeg_between] <;> intro h' <;> linarith

lemma ducking_gain_nil (t : ℚ) : ducking_gain [] t = 1 := rfl

lemma ducking_gain_cons (iv : ℚ × ℚ) (ivs : List (ℚ × ℚ)) (t : ℚ) :
    ducking_gain (iv :: ivs) t =
      (if ffmpeg_between t iv.1 iv.2 then ducking_volume else 1) *
        ducking_gain ivs t := by
  simp [ducking_gain]

lemma ducking_gain_eq_pow (ivs : List (ℚ × ℚ)) (t : ℚ) :
    ducking_gain ivs t = ducking_volume ^ containing_count ivs t := by
  induction ivs with
  | nil => simp [ducking_gain, containing_count]
  | cons iv rest ih =>
    rw [ducking_gain_cons]
    by_cases h : ffmpeg_between t iv.1 iv.2
    · rw [if_pos h, ih]
      have hc : containing_count (iv :: rest) t = containing_count rest t + 1 := by
        simp [containing_count, List.filter_cons, h]
      rw [hc, pow_succ]
      ring
    · rw [if_neg h, ih]
      have hc : containing_count (iv :: rest) t = containing_count rest t := by
        simp [containing_count, List.filter_cons, h]
      rw [hc, one_mul]

lemma ducking_gain_of_all_outside (ivs : List (ℚ × ℚ)) (t : ℚ)
    (h : ∀ iv ∈ ivs, ffmpeg_between t iv.1 iv.2 = false) :
    ducking_gain ivs t = 1 := by
  induction ivs with
  | nil => rfl
  | cons iv rest ih =>
    rw [ducking_gain_cons, h iv (List.mem_cons_self iv rest)]
    simp [ih fun x hx => h x (List.mem_cons_of_mem iv hx)]

/-- C5: Ducking gain correctness.  For pairwise non-overlapping ducking
intervals, the volume expression built by `_apply_audio_ducking` equals
the configured ducking value (0.5) at every `t` strictly inside some
interval, equals 1.0 at every `t` outside all intervals, and in general
equals `duckingValue ^ k` where `k` is the number of intervals containing
`t`. -/
theorem ducking_gain_correct (ivs : List (ℚ × ℚ))
    (hdisj : List.Pairwise (fun a b => a.2 ≤ b.1 ∨ b.2 ≤ a.1) ivs) :
    (∀ t : ℚ, ∀ iv ∈ ivs, iv.1 < t → t < iv.2 →
        ducking_gain ivs t = ducking_volume) ∧
    (∀ t : ℚ, (∀ iv ∈ ivs, t < iv.1 ∨ iv.2 < t) → ducking_gain ivs t = 1) ∧
    (∀ t : ℚ, ducking_gain ivs t = ducking_volume ^ containing_count ivs t) := by
  refine ⟨?_, ?_, fun t => ducking_gain_eq_pow ivs t⟩
  · intro t iv hmem h1 h2
    induction ivs with
    | nil => simp at hmem
    | cons a rest ih =>
      rw [List.pairwise_cons] at hdisj
      rcases List.mem_cons.1 hmem with rfl | hmem'
      · rw [ducking_gain_cons,
          ffmpeg_between_eq_true (le_of_lt h1) (le_of_lt h2),
          ducking_gain_of_all_outside rest t ?_]
        · simp
        · intro b hb
          rcases hdisj.1 b hb with hd | hd
          · exact ffmpeg_between_eq_false (Or.inl (by linarith))
          · exact ffmpeg_between_eq_false (Or.inr (by linarith))
      · rw [ducking_gain_cons]
        rcases hdisj.1 iv hmem' with hd | hd
        · rw [ffmpeg_between_eq_false (Or.inr (by linarith))]
          simp [ih hdisj.2 hmem']
        · rw [ffmpeg_between_eq_false (Or.inl (by linarith))]
          simp [ih hdisj.2 hmem']
  · intro t h
    exact ducking_gain_of_all_outside ivs t fun iv hiv =>
      ffmpeg_between_eq_false (h iv hiv)

/-- Witness for C5 at Scenario D: intervals `(5,10)` and `(20,25)`,
`gain(7) = gain(22) = 0.5`, `gain(15) = 1`. -/
theorem ducking_gain_correct_witness :
    List.Pairwise (fun a b : ℚ × ℚ => a.2 ≤ b.1 ∨ b.2 ≤ a.1)
        [(5, 10), (20, 25)] ∧
    ducking_gain [(5, 10), (20, 25)] 7 = ducking_volume ∧
    ducking_gain [(5, 10), (20, 25)] 22 = ducking_volume ∧
    ducking_gain [(5, 10), (20, 25)] 15 = 1 := by
  have hdisj : List.Pairwise (fun a b : ℚ × ℚ => a.2 ≤ b.1 ∨ b.2 ≤ a.1)
      [(5, 10), (20, 25)] := by
    simp [List.pairwise_cons]
    norm_num
  refine ⟨hdisj, ?_, ?_, ?_⟩
  · exact (ducking_gain_correct _ hdisj).1 7 (5, 10) (by simp)
      (by norm_num) (by norm_num)
  · exact (ducking_gain_correct _ hdisj).1 22 (20, 25) (by simp)
      (by norm_num) (by norm_num)
  · exact (ducking_gain_correct _ hdisj).2.1 15 (by
      intro iv hiv
      rcases List.mem_cons.1 hiv with rfl | hiv'
      · right; norm_num
      · rcases List.mem_cons.1 hiv' with rfl | hiv''
        · left; norm_num
        · simp at hiv'')

/-- C6 counterexample: for the fullframe clip `(5, 20)` (duration 15 s,
beyond the 3.5 s cap) the ducking interval built by
`_build_audio_filters` is the raw `(5, 20)`, while the effective video
window ends at `8.5`; the ducking interval therefore differs from the
clip's effective window, refuting the claim that ducking is derived from
`effectiveWindow`. -/
theorem ducking_window_counterexample :
    ducking_intervals [⟨"b", 5, 20, "fullframe"⟩] = [(5, 20)] ∧
    (fullframe_trim 5 20).2.1 = 17 / 2 ∧
    ducking_intervals [⟨"b", 5, 20, "fullframe"⟩] ≠
      [((fullframe_trim 5 20).1, (fullframe_trim 5 20).2.1)] := by
  refine ⟨rfl, ?_, ?_⟩ <;>
    norm_num [ducking_intervals, fullframe_trim, max_broll_duration]

/-- C6 amended: the ducking interval of every supplementary clip is the
clip's raw `(start_time, end_time)` interval; for a fullframe clip whose
duration exceeds the cap, the video overlay's effective window ends at
`start + maxFullFrameDuration`, strictly before the ducking interval's
end. -/
theorem ducking_uses_raw_intervals (clips : List ComposerClip)
    (c : ComposerClip) (h : c.end_time - c.start_time > max_broll_duration) :
    ducking_intervals clips =
      clips.map (fun cl => (cl.start_time, cl.end_time)) ∧
    (fullframe_trim c.start_time c.end_time).2.1 =
      c.start_time + max_broll_duration ∧
    (fullframe_trim c.start_time c.end_time).2.1 < c.end_time := by
  refine ⟨rfl, ?_, ?_⟩ <;> simp only [fullframe_trim, if_pos h]
  · linarith

/-- Witness for C6's amended theorem at the Scenario C clip. -/
theorem ducking_uses_raw_intervals_witness :
    (20 : ℚ) - 5 > max_broll_duration ∧
    ducking_intervals [⟨"b", 5, 20, "fullframe"⟩] = [(5, 20)] ∧
    (fullframe_trim 5 20).2.1 < 20 :=
  ⟨by norm_num [max_broll_duration],
    (ducking_uses_raw_intervals [⟨"b", 5, 20, "fullframe"⟩]
        ⟨"b", 5, 20, "fullframe"⟩ (by norm_num [max_broll_duration])).1,
    (ducking_uses_raw_intervals [⟨"b", 5, 20, "fullframe"⟩]
        ⟨"b", 5, 20, "fullframe"⟩ (by norm_num [max_broll_duration])).2.2⟩

/-- C7: `VideoComposer.process` never reaches the B-roll checks of
`validate`.  For a supplementary clip whose file does not exist,
`validate` itself reports the error, but the call made by `process`
(which does not forward `broll_clips`, since that argument is bound by
the named parameter and absent from `**kwargs`) returns no errors, so the
FFmpeg composition is invoked anyway — the promised pre-invocation
validation failure does not happen. -/
theorem process_skips_broll_validation :
    validate true true none [⟨true, "missing.mp4", false, true, true⟩]
        = ["B-roll clip not found: missing.mp4"] ∧
    process_validation true true none
        [⟨true, "missing.mp4", false, true, true⟩] = [] ∧
    process_invokes_ffmpeg true true none
        [⟨true, "missing.mp4", false, true, true⟩] = true :=
  ⟨rfl, rfl, rfl⟩

/-- C9 counterexample: a run whose external process exits 0 but whose
output file does not exist (size 0, probed duration 0 against an expected
30 s) is still reported as success by
`compose_segments_with_transitions`, refuting the claimed post-execution
output validation. -/
theorem compose_outcome_counterexample :
    compose_segments_outcome ⟨0, false, 0, 0, 30⟩ = true ∧
    (⟨0, false, 0, 0, 30⟩ : RunResult).output_exists = false :=
  ⟨rfl, rfl⟩

/-- C9 amended: after the external engine exits, success is determined
solely by the exit status — non-zero raises, zero is reported as success —
and the outcome is independent of the output file's existence, size and
probed duration. -/
theorem compose_outcome_exit_only (r r' : RunResult)
    (h : r.returncode = r'.returncode) :
    (compose_segments_outcome r = true ↔ r.returncode = 0) ∧
    compose_segments_outcome r = compose_segments_outcome r' := by
  constructor
  · simp [compose_segments_outcome]
  · simp [compose_segments_outcome, h]

/-- Witness for C9's amended theorem: equal exit codes, different output
states, same reported outcome. -/
theorem compose_outcome_exit_only_witness :
    (⟨0, false, 0, 0, 30⟩ : RunResult).returncode
        = (⟨0, true, 1024, 30, 30⟩ : RunResult).returncode ∧
    (compose_segments_outcome ⟨0, false, 0, 0, 30⟩ = true ↔
      (⟨0, false, 0, 0, 30⟩ : RunResult).returncode = 0) ∧
    compose_segments_outcome ⟨0, false, 0, 0, 30⟩
        = compose_segments_outcome ⟨0, true, 1024, 30, 30⟩ :=
  ⟨rfl, (compose_outcome_exit_only ⟨0, false, 0, 0, 30⟩
      ⟨0, true, 1024, 30, 30⟩ rfl).1,
    (compose_outcome_exit_only ⟨0, false, 0, 0, 30⟩
      ⟨0, true, 1024, 30, 30⟩ rfl).2⟩

/-- C3: Transition-offset formula and monotonicity.  The cross-fade offset
for segment `i` is the sum of the durations of segments `0..i-1` minus
segment `i`'s transition duration, and when all durations are
non-negative and all per-pair transition durations are equal the offsets
are monotonically non-decreasing in `i`. -/
theorem xfade_offset_monotone (segments : List Segment) (d : ℚ)
    (hdur : ∀ s ∈ segments, 0 ≤ s.duration)
    (htd : ∀ s ∈ segments, s.transition_duration = d) :
    (∀ (i : ℕ) (h : i < segments.length),
      xfade_offset segments i (segments.get ⟨i, h⟩).transition_duration
        = ((segments.take i).map Segment.duration).sum
            - (segments.get ⟨i, h⟩).transition_duration) ∧
    (∀ (i : ℕ) (h : i + 1 < segments.length),
      xfade_offset segments i
          (segments.get ⟨i, Nat.lt_of_succ_lt h⟩).transition_duration
        ≤ xfade_offset segments (i + 1)
            (segments.get ⟨i + 1, h⟩).transition_duration) := by
  refine ⟨fun i h => rfl, fun i h => ?_⟩
  have hi : i < segments.length := Nat.lt_of_succ_lt h
  have hlen : i < (segments.map Segment.duration).length := by simpa using hi
  have hsum := List.sum_take_succ (segments.map Segment.duration) i hlen
  rw [List.getElem_map] at hsum
  have h1 : (segments.get ⟨i, hi⟩).transition_duration = d :=
    htd _ (List.get_mem segments i hi)
  have h2 : (segments.get ⟨i + 1, h⟩).transition_duration = d :=
    htd _ (List.get_mem segments (i + 1) h)
  have h3 : 0 ≤ segments[i].duration := hdur _ (List.getElem_mem hi)
  simp only [xfade_offset, h1, h2, List.map_take]
  rw [hsum]
  linarith

lemma sample_segments_dur : ∀ s ∈ sample_segments, 0 ≤ s.duration := by
  intro s hs
  simp only [sample_segments, List.mem_cons, List.mem_singleton] at hs
  rcases hs with rfl | rfl | hs
  · norm_num
  · norm_num
  · simp at hs

lemma sample_segments_td : ∀ s ∈ sample_segments, s.transition_duration = 1/2 := by
  intro s hs
  simp only [sample_segments, List.mem_cons, List.mem_singleton] at hs
  rcases hs with rfl | rfl | hs
  · norm_num
  · norm_num
  · simp at hs

/-- Witness for C3 on `sample_segments`. -/
theorem xfade_offset_monotone_witness :
    (∀ s ∈ sample_segments, 0 ≤ s.duration) ∧
    (∀ s ∈ sample_segments, s.transition_duration = 1/2) ∧
    xfade_offset sample_segments 0
        (sample_segments.get ⟨0, by norm_num [sample_segments]⟩).transition_duration
      ≤ xfade_offset sample_segments 1
        (sample_segments.get ⟨1, by norm_num [sample_segments]⟩).transition_duration :=
  ⟨sample_segments_dur, sample_segments_td,
    (xfade_offset_monotone sample_segments (1/2) sample_segments_dur
      sample_segments_td).2 0 (by norm_num [sample_segments])⟩

lemma sorted_non_overlapping_cons {t : ℚ} {c : BrollClip}
    {rest : List BrollClip}
    (h : sorted_non_overlapping t (c :: rest) = true) :
    t ≤ c.start_time ∧ c.start_time < c.end_time ∧
      sorted_non_overlapping c.end_time rest = true := by
  simp only [sorted_non_overlapping, Bool.and_eq_true, decide_eq_true_eq] at h
  exact ⟨h.1.1, h.1.2, h.2⟩

lemma sorted_non_overlapping_le :
    ∀ (cs : List BrollClip) (t : ℚ), sorted_non_overlapping t cs = true →
      ∀ c ∈ cs, t ≤ c.start_time := by
  intro cs
  induction cs with
  | nil => intro t _ c hc; simp at hc
  | cons c rest ih =>
    intro t ht d hd
    obtain ⟨h1, h2, h3⟩ := sorted_non_overlapping_cons ht
    rcases List.mem_cons.1 hd with rfl | hd'
    · exact h1
    · have := ih c.end_time h3 d hd'
      linarith

lemma sorted_non_overlapping_pairwise :
    ∀ (cs : List BrollClip) (t : ℚ), sorted_non_overlapping t cs = true →
      List.Pairwise (fun a b : BrollClip => a.start_time ≤ b.start_time) cs := by
  intro cs
  induction cs with
  | nil => intro t _; simp
  | cons c rest ih =>
    intro t ht
    obtain ⟨h1, h2, h3⟩ := sorted_non_overlapping_cons ht
    refine List.Pairwise.cons ?_ (ih c.end_time h3)
    intro b hb
    have := sorted_non_overlapping_le rest c.end_time h3 b hb
    linarith

lemma sort_broll_sorted_eq {t : ℚ} {cs : List BrollClip}
    (h : sorted_non_overlapping t cs = true) : sort_broll cs = cs :=
  List.Sorted.insertionSort_eq (sorted_non_overlapping_pairwise cs t h)

lemma clips_within_cons {D : ℚ} {c : BrollClip} {rest : List BrollClip}
    (h : clips_within D (c :: rest) = true) :
    c.end_time ≤ D ∧ clips_within D rest = true := by
  rw [clips_within, List.all_cons, Bool.and_eq_true] at h
  exact ⟨by simpa using h.1, h.2⟩

lemma go_sum (p : String) (D : ℚ) :
    ∀ (cs : List BrollClip) (t : ℚ) (i tidx nseg : ℕ),
      sorted_non_overlapping t cs = true → clips_within D cs = true →
      t ≤ D →
      ((generate_segments_go p D cs t i tidx nseg).map Segment.duration).sum
        = D - t := by
  intro cs
  induction cs with
  | nil =>
    intro t i tidx nseg _ _ htD
    by_cases h : t < D
    · simp [generate_segments_go, h]
    · have ht : t = D := le_antisymm htD (not_lt.1 h)
      simp [generate_segments_go, h, ht]
  | cons c rest ih =>
    intro t i tidx nseg hs hw htD
    obtain ⟨h1, h2, h3⟩ := sorted_non_overlapping_cons hs
    obtain ⟨hw1, hw2⟩ := clips_within_cons hw
    by_cases h : t < c.start_time
    · simp only [generate_segments_go, if_pos h, List.map_cons, List.sum_cons]
      rw [ih c.end_time (i + 1) (tidx + 2) (nseg + 2) h3 hw2 hw1]
      ring
    · simp only [generate_segments_go, if_neg h, List.map_cons, List.sum_cons]
      rw [ih c.end_time (i + 1) (tidx + 1) (nseg + 1) h3 hw2 hw1]
      have ht : t = c.start_time := le_antisymm h1 (not_lt.1 h)
      rw [ht]
      ring

lemma go_pos (p : String) (D : ℚ) :
    ∀ (cs : List BrollClip) (t : ℚ) (i tidx nseg : ℕ),
      sorted_non_overlapping t cs = true → clips_within D cs = true →
      t ≤ D →
      ∀ s ∈ generate_segments_go p D cs t i tidx nseg, 0 < s.duration := by
  intro cs
  induction cs with
  | nil =>
    intro t i tidx nseg _ _ htD s hsmem
    by_cases h : t < D
    · simp only [generate_segments_go, if_pos h, List.mem_singleton] at hsmem
      subst hsmem
      show (0 : ℚ) < D - t
      linarith
    · simp [generate_segments_go, h] at hsmem
  | cons c rest ih =>
    intro t i tidx nseg hs hw htD s hsmem
    obtain ⟨h1, h2, h3⟩ := sorted_non_overlapping_cons hs
    obtain ⟨hw1, hw2⟩ := clips_within_cons hw
    by_cases h : t < c.start_time
    · simp only [generate_segments_go, if_pos h, List.mem_cons] at hsmem
      rcases hsmem with rfl | rfl | hmem
      · show (0 : ℚ) < c.start_time - t
        linarith
      · show (0 : ℚ) < c.end_time - c.start_time
        linarith
      · exact ih c.end_time (i + 1) (tidx + 2) (nseg + 2) h3 hw2 hw1 s hmem
    · simp only [generate_segments_go, if_neg h, List.mem_cons] at hsmem
      rcases hsmem with rfl | hmem
      · show (0 : ℚ) < c.end_time - c.start_time
        linarith
      · exact ih c.end_time (i + 1) (tidx + 1) (nseg + 1) h3 hw2 hw1 s hmem

lemma go_ne_nil (p : String) (D : ℚ) (cs : List BrollClip) (t : ℚ)
    (i tidx nseg : ℕ) (h : t < D ∨ cs ≠ []) :
    generate_segments_go p D cs t i tidx nseg ≠ [] := by
  cases cs with
  | nil =>
    rcases h with h | h
    · simp [generate_segments_go, h]
    · simp at h
  | cons c rest =>
    by_cases hb : t < c.start_time <;> simp [generate_segments_go, hb]

lemma tl_intervals_cons (t0 : ℚ) (s : Segment) (rest : List Segment) :
    tl_intervals t0 (s :: rest)
      = (t0, t0 + s.duration) :: tl_intervals (t0 + s.duration) rest := rfl

lemma tl_intervals_chain_eq :
    ∀ (segs : List Segment) (t0 : ℚ),
      List.Chain' (fun a b : ℚ × ℚ => a.2 = b.1) (tl_intervals t0 segs) := by
  intro segs
  induction segs with
  | nil => intro t0; simp [tl_intervals]
  | cons s rest ih =>
    intro t0
    cases rest with
    | nil => simp [tl_intervals]
    | cons s2 rest2 =>
      rw [tl_intervals_cons, tl_intervals_cons, List.chain'_cons]
      exact ⟨rfl, ih (t0 + s.duration)⟩

lemma tl_intervals_chain_lt :
    ∀ (segs : List Segment) (t0 : ℚ), (∀ s ∈ segs, 0 < s.duration) →
      List.Chain' (fun a b : ℚ × ℚ => a.1 < b.1) (tl_intervals t0 segs) := by
  intro segs
  induction segs with
  | nil => intro t0 _; simp [tl_intervals]
  | cons s rest ih =>
    intro t0 hpos
    cases rest with
    | nil => simp [tl_intervals]
    | cons s2 rest2 =>
      rw [tl_intervals_cons, tl_intervals_cons, List.chain'_cons]
      constructor
      · show t0 < t0 + s.duration
        have := hpos s (List.mem_cons_self s (s2 :: rest2))
        linarith
      · exact ih (t0 + s.duration)
          (fun x hx => hpos x (List.mem_cons_of_mem s hx))

lemma tl_intervals_getLast_snd :
    ∀ (segs : List Segment) (t0 : ℚ), segs ≠ [] →
      (tl_intervals t0 segs).getLast?.map Prod.snd
        = some (t0 + (segs.map Segment.duration).sum) := by
  intro segs
  induction segs with
  | nil => intro t0 h; exact absurd rfl h
  | cons s rest ih =>
    intro t0 _
    cases rest with
    | nil => simp [tl_intervals]
    | cons s2 rest2 =>
      rw [tl_intervals_cons, tl_intervals_cons, List.getLast?_cons_cons,
        ← tl_intervals_cons, ih (t0 + s.duration) (by simp)]
      simp only [List.map_cons, List.sum_cons, Option.some.injEq]
      ring

/-- C1: Coverage invariant.  For a positive main-video duration and
supplementary clips that are sorted, pairwise non-overlapping and inside
`[0, D]`, the segment list produced by `generate_segments` covers exactly
`[0, D)`: the durations sum to `D`, every segment is non-degenerate, the
induced timeline intervals are contiguous (each end equals the next
start) with strictly increasing starts, the first interval starts at `0`
and the last ends at `D`. -/
theorem generate_segments_coverage (p : String) (D : ℚ)
    (cs : List BrollClip) (hD : 0 < D)
    (hs : sorted_non_overlapping 0 cs = true)
    (hw : clips_within D cs = true) :
    ((generate_segments p D cs).map Segment.duration).sum = D ∧
    (∀ s ∈ generate_segments p D cs, 0 < s.duration) ∧
    List.Chain' (fun a b : ℚ × ℚ => a.2 = b.1)
      (tl_intervals 0 (generate_segments p D cs)) ∧
    List.Chain' (fun a b : ℚ × ℚ => a.1 < b.1)
      (tl_intervals 0 (generate_segments p D cs)) ∧
    (tl_intervals 0 (generate_segments p D cs)).head?.map Prod.fst
      = some 0 ∧
    (tl_intervals 0 (generate_segments p D cs)).getLast?.map Prod.snd
      = some D := by
  have hgen : generate_segments p D cs
      = generate_segments_go p D cs 0 0 0 0 := by
    rw [generate_segments, sort_broll_sorted_eq hs]
  rw [hgen]
  have hsum := go_sum p D cs 0 0 0 0 hs hw (le_of_lt hD)
  have hpos := go_pos p D cs 0 0 0 0 hs hw (le_of_lt hD)
  have hne := go_ne_nil p D cs 0 0 0 0 (Or.inl hD)
  refine ⟨by rw [hsum]; ring, hpos, tl_intervals_chain_eq _ 0,
    tl_intervals_chain_lt _ 0 hpos, ?_, ?_⟩
  · cases hE : generate_segments_go p D cs 0 0 0 0 with
    | nil => exact absurd hE hne
    | cons s rest => rw [tl_intervals_cons]; rfl
  · rw [tl_intervals_getLast_snd _ 0 hne, hsum]
    norm_num

/-- Witness for C1 with `D = 30` and one clip `(5, 12)`. -/
theorem generate_segments_coverage_witness :
    (0 : ℚ) < 30 ∧
    sorted_non_overlapping 0 [⟨"b1", 5, 12⟩] = true ∧
    clips_within 30 [⟨"b1", 5, 12⟩] = true ∧
    ((generate_segments "main" 30 [⟨"b1", 5, 12⟩]).map Segment.duration).sum
      = 30 :=
  ⟨by norm_num,
    by simp [sorted_non_overlapping]; norm_num,
    by simp [clips_within]; norm_num,
    (generate_segments_coverage "main" 30 [⟨"b1", 5, 12⟩] (by norm_num)
      (by simp [sorted_non_overlapping]; norm_num)
      (by simp [clips_within]; norm_num)).1⟩

/-- C2 counterexample (Scenario E): a clip `(8, 15)` supplied together
with a clip occupying `(10, 18)`.  `validate` (with both clip files
present and all fields supplied) reports no error at all, and
`generate_segments` sorts the clips and produces a 4-segment list whose
durations sum to 35 on a 30 s video — the overlapping input is silently
reordered and emitted, not rejected. -/
theorem overlap_not_rejected_counterexample :
    validate true true none
        [⟨true, "a.mp4", true, true, true⟩, ⟨true, "b.mp4", true, true, true⟩]
      = [] ∧
    (generate_segments "main" 30 [⟨"a", 10, 18⟩, ⟨"b", 8, 15⟩]).length = 4 ∧
    ((generate_segments "main" 30 [⟨"a", 10, 18⟩, ⟨"b", 8, 15⟩]).map
        Segment.duration).sum = 35 ∧
    (35 : ℚ) ≠ 30 := by
  refine ⟨rfl, ?_, ?_, by norm_num⟩
  · norm_num [generate_segments, generate_segments_go, sort_broll,
      List.insertionSort, List.orderedInsert]
  · norm_num [generate_segments, generate_segments_go, sort_broll,
      List.insertionSort, List.orderedInsert]

lemma go_broll_count (p : String) (D : ℚ) :
    ∀ (cs : List BrollClip) (t : ℚ) (i tidx nseg : ℕ),
      ((generate_segments_go p D cs t i tidx nseg).countP
          (fun s => decide (s.type = SegmentType.broll))) = cs.length := by
  intro cs
  induction cs with
  | nil =>
    intro t i tidx nseg
    by_cases h : t < D <;> simp [generate_segments_go, h]
  | cons c rest ih =>
    intro t i tidx nseg
    by_cases h : t < c.start_time <;>
      simp [generate_segments_go, h, List.countP_cons, ih]

lemma broll_errors_nil_of_ok :
    ∀ (clips : List BrollClipDescriptor) (i : ℕ),
      (∀ c ∈ clips, c.has_path = true ∧ c.path_exists = true ∧
        c.has_start_time = true ∧ c.has_end_time = true) →
      broll_errors i clips = [] := by
  intro clips
  induction clips with
  | nil => intro i _; rfl
  | cons c rest ih =>
    intro i h
    obtain ⟨hp, hx, hst, he⟩ := h c (List.mem_cons_self c rest)
    rw [broll_errors, ih (i + 1) (fun x hx2 => h x (List.mem_cons_of_mem c hx2))]
    simp [clip_errors, hp, hx, hst, he]

/-- C2 amended: overlapping supplementary-clip intervals are not
rejected.  `validate` checks only file existence and field presence —
it returns no errors for any well-formed clip descriptors, whatever their
intervals — and `generate_segments` sorts the clips by start time and
unconditionally emits exactly one supplementary segment per input clip,
so overlapping input is silently reordered and emitted rather than
rejected. -/
theorem overlap_not_validated (clips : List BrollClipDescriptor)
    (h : ∀ c ∈ clips, c.has_path = true ∧ c.path_exists = true ∧
      c.has_start_time = true ∧ c.has_end_time = true) :
    validate true true none clips = [] ∧
    ∀ (p : String) (D : ℚ) (cs : List BrollClip),
      ((generate_segments p D cs).countP
          (fun s => decide (s.type = SegmentType.broll))) = cs.length := by
  constructor
  · rw [validate, broll_errors_nil_of_ok clips 0 h]
    rfl
  · intro p D cs
    rw [generate_segments, go_broll_count p D (sort_broll cs) 0 0 0 0,
      sort_broll, List.length_insertionSort]

/-- Witness for C2's amended theorem: two well-formed descriptors pass
validation, and the overlapping Scenario E clips still produce one B-roll
segment each. -/
theorem overlap_not_validated_witness :
    (∀ c ∈ [(⟨true, "a.mp4", true, true, true⟩ : BrollClipDescriptor),
        ⟨true, "b.mp4", true, true, true⟩],
      c.has_path = true ∧ c.path_exists = true ∧ c.has_start_time = true ∧
        c.has_end_time = true) ∧
    validate true true none [⟨true, "a.mp4", true, true, true⟩,
        ⟨true, "b.mp4", true, true, true⟩] = [] ∧
    ((generate_segments "main" 30 [⟨"a", 10, 18⟩, ⟨"b", 8, 15⟩]).countP
        (fun s => decide (s.type = SegmentType.broll))) = 2 := by
  have h : ∀ c ∈ [(⟨true, "a.mp4", true, true, true⟩ : BrollClipDescriptor),
      ⟨true, "b.mp4", true, true, true⟩],
      c.has_path = true ∧ c.path_exists = true ∧ c.has_start_time = true ∧
        c.has_end_time = true := by decide
  refine ⟨h, (overlap_not_validated _ h).1, ?_⟩
  have h2 := (overlap_not_validated
    [(⟨true, "a.mp4", true, true, true⟩ : BrollClipDescriptor),
      ⟨true, "b.mp4", true, true, true⟩] h).2 "main" 30
    [⟨"a", 10, 18⟩, ⟨"b", 8, 15⟩]
  simpa using h2

/-- C8 counterexample: the valid input `D = 10`, one clip `(0, 5)` whose
interval starts at time 0.  The first emitted segment is the B-roll
segment, and its `transition_in` is `some "slideright"` (pattern entry
0), not `None` — the guard `if i > 0` protects only the avatar branch,
and no avatar segment precedes a clip starting at 0. -/
theorem first_transition_counterexample :
    (0 : ℚ) < 10 ∧
    sorted_non_overlapping 0 [⟨"b", 0, 5⟩] = true ∧
    clips_within 10 [⟨"b", 0, 5⟩] = true ∧
    ((generate_segments "main" 10 [⟨"b", 0, 5⟩]).map
        Segment.transition_in).head? = some (some "slideright") ∧
    some (some "slideright") ≠ some (none : Option String) := by
  refine ⟨by norm_num, by norm_num [sorted_non_overlapping],
    by norm_num [clips_within], ?_, by simp⟩
  norm_num [generate_segments, generate_segments_go, sort_broll,
    List.insertionSort, get_transition_type, transition_pattern]

lemma go_transition_all (p : String) (D : ℚ) :
    ∀ (cs : List BrollClip) (t : ℚ) (i tidx nseg : ℕ), 1 ≤ i →
      ∀ (k : ℕ) (hk : k < (generate_segments_go p D cs t i tidx nseg).length),
        ((generate_segments_go p D cs t i tidx nseg)[k]).transition_in
          = some (get_transition_type (tidx + k)) := by
  intro cs
  induction cs with
  | nil =>
    intro t i tidx nseg hi k hk
    by_cases h : t < D
    · simp only [generate_segments_go, if_pos h] at hk ⊢
      have hk0 : k = 0 := by simpa using hk
      subst hk0
      simp
    · simp [generate_segments_go, h] at hk
  | cons c rest ih =>
    intro t i tidx nseg hi k hk
    by_cases h : t < c.start_time
    · simp only [generate_segments_go, if_pos h] at hk ⊢
      rcases k with _ | _ | k2
      · rw [List.getElem_cons_zero]
        show (if 0 < i then some (get_transition_type tidx) else none)
          = some (get_transition_type (tidx + 0))
        have hi0 : 0 < i := hi
        rw [if_pos hi0]
        simp
      · simp [List.getElem_cons_succ, List.getElem_cons_zero]
      · rw [List.getElem_cons_succ, List.getElem_cons_succ]
        have hk2 : k2 < (generate_segments_go p D rest c.end_time (i + 1)
            (tidx + 2) (nseg + 2)).length := by
          simp only [List.length_cons] at hk
          omega
        rw [ih c.end_time (i + 1) (tidx + 2) (nseg + 2) (by omega) k2 hk2]
        congr 2
        omega
    · simp only [generate_segments_go, if_neg h] at hk ⊢
      rcases k with _ | k2
      · rw [List.getElem_cons_zero]
        show some (get_transition_type tidx)
          = some (get_transition_type (tidx + 0))
        simp
      · rw [List.getElem_cons_succ]
        have hk2 : k2 < (generate_segments_go p D rest c.end_time (i + 1)
            (tidx + 1) (nseg + 1)).length := by
          simp only [List.length_cons] at hk
          omega
        rw [ih c.end_time (i + 1) (tidx + 1) (nseg + 1) (by omega) k2 hk2]
        congr 2
        omega

/-- C8 amended: in every segment list produced from valid input, every
segment at emission index `k ≥ 1` carries
`transition_in = some pattern[k mod 6]` (the deterministic cycling list
indexed by emission order), and the first segment's `transition_in` is
`None` exactly when the clip list is non-empty and its first clip starts
strictly after 0; when there are no clips, or when the first clip starts
at 0, the first segment instead carries `some pattern[0]`
(`"slideright"`). -/
theorem transition_assignment (p : String) (D : ℚ) (cs : List BrollClip)
    (hD : 0 < D) (hs : sorted_non_overlapping 0 cs = true)
    (hw : clips_within D cs = true) :
    (cs = [] →
      ((generate_segments p D cs).map Segment.transition_in).head?
        = some (some (get_transition_type 0))) ∧
    (∀ (c : BrollClip) (cs2 : List BrollClip), cs = c :: cs2 →
      0 < c.start_time →
      ((generate_segments p D cs).map Segment.transition_in).head?
        = some none) ∧
    (∀ (c : BrollClip) (cs2 : List BrollClip), cs = c :: cs2 →
      c.start_time = 0 →
      ((generate_segments p D cs).map Segment.transition_in).head?
        = some (some (get_transition_type 0))) ∧
    (∀ (k : ℕ) (hk : k < (generate_segments p D cs).length), 1 ≤ k →
      ((generate_segments p D cs)[k]).transition_in
        = some (get_transition_type k)) := by
  have hgen : generate_segments p D cs
      = generate_segments_go p D cs 0 0 0 0 := by
    rw [generate_segments, sort_broll_sorted_eq hs]
  rw [hgen]
  refine ⟨?_, ?_, ?_, ?_⟩
  · rintro rfl
    simp [generate_segments_go, hD]
  · rintro c cs2 rfl hc
    simp [generate_segments_go, hc]
  · rintro c cs2 rfl hc
    have hns : ¬((0 : ℚ) < c.start_time) := by rw [hc]; exact lt_irrefl 0
    simp [generate_segments_go, hns]
  · intro k hk h1k
    cases cs with
    | nil =>
      simp only [generate_segments_go, if_pos hD] at hk
      simp at hk
      omega
    | cons c rest =>
      by_cases h : (0 : ℚ) < c.start_time
      · simp only [generate_segments_go, if_pos h] at hk ⊢
        rcases k with _ | _ | k2
        · omega
        · simp [List.getElem_cons_succ, List.getElem_cons_zero]
        · rw [List.getElem_cons_succ, List.getElem_cons_succ]
          have hk2 : k2 < (generate_segments_go p D rest c.end_time (0 + 1)
              (0 + 2) (0 + 2)).length := by
            simp only [List.length_cons] at hk
            omega
          rw [go_transition_all p D rest c.end_time (0 + 1) (0 + 2) (0 + 2)
            (by omega) k2 hk2]
          congr 2
          omega
      · simp only [generate_segments_go, if_neg h] at hk ⊢
        rcases k with _ | k2
        · omega
        · rw [List.getElem_cons_succ]
          have hk2 : k2 < (generate_segments_go p D rest c.end_time (0 + 1)
              (0 + 1) (0 + 1)).length := by
            simp only [List.length_cons] at hk
            omega
          rw [go_transition_all p D rest c.end_time (0 + 1) (0 + 1) (0 + 1)
            (by omega) k2 hk2]
          congr 2
          omega

/-- Witness for C8's amended theorem: `D = 30`, one clip `(5, 12)`; the
first segment's `transition_in` is `None` and segment 1 carries
pattern entry 1 (`"fade"`). -/
theorem transition_assignment_witness :
    ((0 : ℚ) < 30) ∧
    ((generate_segments "main" 30 [⟨"b1", 5, 12⟩]).map
        Segment.transition_in).head? = some none :=
  ⟨by norm_num,
    (transition_assignment "main" 30 [⟨"b1", 5, 12⟩] (by norm_num)
        (by norm_num [sorted_non_overlapping])
        (by norm_num [clips_within])).2.1
      ⟨"b1", 5, 12⟩ [] rfl (by norm_num)⟩

/-- C10 counterexample: for a 3-segment list (all segments after the
first carrying a transition), the xfade node for `i = 1` is assigned
output label `"v1"`, which collides with the scaled-input label `"v1"`
produced by the scale part for segment 1 — the labels are not distinct. -/
theorem xfade_label_collision_counterexample :
    ((xfade_nodes [⟨.avatar, "m", 0, 5, 5, none, 1/2, 0⟩,
        ⟨.broll, "b", 0, 7, 7, some "fade", 1/2, 1⟩,
        ⟨.avatar, "m", 12, 30, 18, some "dissolve", 1/2, 2⟩]).map
          XfadeNode.out_label) = ["v1", "vout"] ∧
    "v1" ∈ ((scale_nodes [⟨.avatar, "m", 0, 5, 5, none, 1/2, 0⟩,
        ⟨.broll, "b", 0, 7, 7, some "fade", 1/2, 1⟩,
        ⟨.avatar, "m", 12, 30, 18, some "dissolve", 1/2, 2⟩] 1280 720).map
          ScaleNode.out_label) := by
  constructor
  · rfl
  · simp only [scale_nodes]
    refine List.mem_map.2
      ⟨⟨1, 1280, 720, "v1"⟩, List.mem_map.2 ⟨1, by decide, by decide⟩, rfl⟩

lemma digitChar_big (m : ℕ) : Nat.digitChar (m + 16) = '*' := by
  unfold Nat.digitChar
  iterate 16 rw [if_neg (by omega)]

lemma digitChar_ne_o (m : ℕ) : Nat.digitChar m ≠ 'o' := by
  rcases Nat.lt_or_ge m 16 with h | h
  · interval_cases m <;> decide
  · obtain ⟨k, rfl⟩ : ∃ k, m = k + 16 := ⟨m - 16, by omega⟩
    rw [digitChar_big]
    decide

lemma toDigitsCore_chars (b : ℕ) :
    ∀ (f n : ℕ) (l : List Char) (c : Char),
      c ∈ Nat.toDigitsCore b f n l →
      (∃ m, c = Nat.digitChar m) ∨ c ∈ l := by
  intro f
  induction f with
  | zero => intro n l c h; rw [Nat.toDigitsCore] at h; exact Or.inr h
  | succ f ih =>
    intro n l c h
    rw [Nat.toDigitsCore] at h
    by_cases hz : n / b = 0
    · rw [if_pos hz] at h
      rcases List.mem_cons.1 h with rfl | hl
      · exact Or.inl ⟨n % b, rfl⟩
      · exact Or.inr hl
    · rw [if_neg hz] at h
      rcases ih _ _ _ h with hd | hl
      · exact Or.inl hd
      · rcases List.mem_cons.1 hl with rfl | hl2
        · exact Or.inl ⟨n % b, rfl⟩
        · exact Or.inr hl2

lemma repr_no_o (i : ℕ) : 'o' ∉ (Nat.repr i).data := by
  intro hmem
  have h2 : 'o' ∈ Nat.toDigitsCore 10 (i + 1) i [] := hmem
  rcases toDigitsCore_chars 10 (i + 1) i [] 'o' h2 with ⟨m, hm⟩ | hl
  · exact digitChar_ne_o m hm.symm
  · simp at hl

lemma v_label_ne_vout (i : ℕ) : "v" ++ toString i ≠ "vout" := by
  intro h
  have hd : ('v' :: (toString i).data) = ['v', 'o', 'u', 't'] := by
    have := congrArg String.data h
    rw [String.data_append] at this
    exact this
  have hd2 : (toString i).data = ['o', 'u', 't'] := (List.cons.inj hd).2
  have hmem : 'o' ∈ (Nat.repr i).data := by
    show 'o' ∈ (toString i).data
    rw [hd2]
    simp
  exact repr_no_o i hmem

lemma xfade_nodes_go_out_labels (segs : List Segment) :
    ∀ (ps : List (ℕ × Segment)) (cur : String),
      (∀ pr ∈ ps, pr.2.transition_in.isSome = true) →
      (xfade_nodes_go segs ps cur).map XfadeNode.out_label
        = ps.map (fun pr => xfade_next_label segs.length pr.1) := by
  intro ps
  induction ps with
  | nil => intro cur _; rfl
  | cons pr rest ih =>
    intro cur h
    obtain ⟨i, seg⟩ := pr
    have hsome := h (i, seg) (List.mem_cons_self _ _)
    cases htr : seg.transition_in with
    | none => rw [htr] at hsome; simp at hsome
    | some tr =>
      simp only [xfade_nodes_go, htr, List.map_cons]
      rw [ih (xfade_next_label segs.length i)
        (fun x hx => h x (List.mem_cons_of_mem _ hx))]

/-- C10 amended: for every segment list of length `n ≥ 2` with all
segments after the first carrying a transition, the xfade output labels
are exactly `v1, ..., v(n-2)` followed by `vout`: exactly one node
outputs the final label `"vout"`, but every non-final xfade output label
`v{i}` (for `1 ≤ i ≤ n-2`) coincides with the scaled-input label `v{i}`,
so the claimed distinctness from the scale labels fails whenever
`n ≥ 3` (it holds only for `n = 2`). -/
theorem xfade_label_structure (segments : List Segment)
    (video_width video_height : ℕ) (h2 : 2 ≤ segments.length)
    (htr : ∀ (k : ℕ) (hk : k < segments.length), 1 ≤ k →
      (segments[k]).transition_in.isSome = true) :
    ((xfade_nodes segments).map XfadeNode.out_label
        = ((List.range' 1 (segments.length - 2)).map
            (fun i => "v" ++ toString i)) ++ ["vout"]) ∧
    ((xfade_nodes segments).map XfadeNode.out_label).count "vout" = 1 ∧
    (∀ i : ℕ, 1 ≤ i → i + 1 < segments.length →
      ("v" ++ toString i) ∈ (xfade_nodes segments).map XfadeNode.out_label ∧
      ("v" ++ toString i) ∈ (scale_nodes segments video_width
          video_height).map ScaleNode.out_label) := by
  have hmain : (xfade_nodes segments).map XfadeNode.out_label
      = ((List.range' 1 (segments.length - 2)).map
          (fun i => "v" ++ toString i)) ++ ["vout"] := by
    have hps : ∀ pr ∈ List.enumFrom 1 (segments.drop 1),
        pr.2.transition_in.isSome = true := by
      intro pr hpr
      obtain ⟨i, seg⟩ := pr
      obtain ⟨h1i, h2i, h3i⟩ := List.mem_enumFrom hpr
      rw [List.length_drop] at h2i
      have hilt : i < segments.length := by omega
      have hseg : seg = segments[i] := by
        rw [h3i, List.getElem_drop]
        congr 1
        omega
      rw [hseg]
      exact htr i hilt (by omega)
    rw [xfade_nodes, xfade_nodes_go_out_labels segments _ _ hps]
    have hcomp : (List.enumFrom 1 (segments.drop 1)).map
        (fun pr => xfade_next_label segments.length pr.1)
        = ((List.enumFrom 1 (segments.drop 1)).map Prod.fst).map
            (xfade_next_label segments.length) := by
      rw [List.map_map]
      rfl
    rw [hcomp, List.enumFrom_map_fst, List.length_drop]
    have he : segments.length - 1 = (segments.length - 2) + 1 := by omega
    rw [he, List.range'_concat]
    have h1x : 1 + 1 * (segments.length - 2) = segments.length - 1 := by
      omega
    rw [h1x, List.map_append]
    congr 1
    · apply List.map_congr_left
      intro i hi
      rw [List.mem_range'] at hi
      obtain ⟨j, hj, rfl⟩ := hi
      rw [xfade_next_label, if_pos (by omega)]
    · simp [xfade_next_label]
  refine ⟨hmain, ?_, ?_⟩
  · rw [hmain, List.count_append]
    have hz : (((List.range' 1 (segments.length - 2)).map
        (fun i => "v" ++ toString i)).count "vout") = 0 := by
      rw [List.count_eq_zero]
      intro hmem
      obtain ⟨i, _, hi⟩ := List.mem_map.1 hmem
      exact v_label_ne_vout i hi
    rw [hz]
    simp
  · intro i h1i hilt
    constructor
    · rw [hmain]
      refine List.mem_append.2 (Or.inl ?_)
      refine List.mem_map.2 ⟨i, ?_, rfl⟩
      rw [List.mem_range']
      exact ⟨i - 1, by omega, by omega⟩
    · rw [scale_nodes]
      refine List.mem_map.2
        ⟨⟨i, video_width, video_height, "v" ++ toString i⟩, ?_, rfl⟩
      exact List.mem_map.2 ⟨i, List.mem_range.2 (by omega), rfl⟩

/-- Witness for C10's amended theorem on the concrete 3-segment list:
exactly one `"vout"` label, and the collision at `i = 1`. -/
theorem xfade_label_structure_witness :
    (2 ≤ ([⟨.avatar, "m", 0, 5, 5, none, 1/2, 0⟩,
        ⟨.broll, "b", 0, 7, 7, some "fade", 1/2, 1⟩,
        ⟨.avatar, "m", 12, 30, 18, some "dissolve", 1/2, 2⟩] :
          List Segment).length) ∧
    (((xfade_nodes [⟨.avatar, "m", 0, 5, 5, none, 1/2, 0⟩,
        ⟨.broll, "b", 0, 7, 7, some "fade", 1/2, 1⟩,
        ⟨.avatar, "m", 12, 30, 18, some "dissolve", 1/2, 2⟩]).map
          XfadeNode.out_label).count "vout" = 1) := by
  have htr : ∀ (k : ℕ)
      (hk : k < ([⟨.avatar, "m", 0, 5, 5, none, 1/2, 0⟩,
        ⟨.broll, "b", 0, 7, 7, some "fade", 1/2, 1⟩,
        ⟨.avatar, "m", 12, 30, 18, some "dissolve", 1/2, 2⟩] :
          List Segment).length), 1 ≤ k →
      (([⟨.avatar, "m", 0, 5, 5, none, 1/2, 0⟩,
        ⟨.broll, "b", 0, 7, 7, some "fade", 1/2, 1⟩,
        ⟨.avatar, "m", 12, 30, 18, some "dissolve", 1/2, 2⟩] :
          List Segment)[k]).transition_in.isSome = true := by
    intro k hk h1k
    simp only [List.length_cons, List.length_nil] at hk
    interval_cases k <;> simp
  exact ⟨by norm_num,
    (xfade_label_structure _ 1280 720 (by norm_num) htr).2.1⟩

end BrainBinge
